import Mathlib

/-!
Verification of the AIBL clinical-data conversion logic
(`clinica/converters/aibl_to_bids/utils/clinical.py`).

The Python functions operate on pandas DataFrames; here tables are lists of
records, a cell read from a CSV is an `Option String` (`none` models pandas
`NaN`), and functions that can raise a Python exception return `Except`.
-/

namespace ClinicaAibl

/-! ## Participants table (`create_participants_tsv_file`) -/

/-- Pandas `Series.astype(str)`: a missing value (`NaN`) is stringified to
the literal text `"nan"`; every other cell keeps its string content. -/
def astypeStr : Option String → String
  | none => "nan"
  | some s => s

/-- Scanner for `Series.str.extract(r"/(\d{4}).*")` (a `re.search`): find the
first position where a `/` is immediately followed by four digits and return
those four digits. -/
def extractYearGo : List Char → Option String
  | [] => none
  | c :: rest =>
    if c = '/' ∧ (rest.take 4).length = 4 ∧ (rest.take 4).all Char.isDigit then
      some (String.mk (rest.take 4))
    else
      extractYearGo rest

/-- `participant_df["date_of_birth"].str.extract(r"/(\d{4}).*")`: keep only the
year of a `/YYYY...` date string; no match gives `NaN`. -/
def extractYear (s : String) : Option String :=
  extractYearGo s.toList

/-- `participant_df["sex"].map({"1": "M", "2": "F"})`: unmapped values become
`NaN`. -/
def sexMap (s : String) : Option String :=
  if s = "1" then some "M" else if s = "2" then some "F" else none

/-- `fillna("n/a")` followed by `replace("-4", "n/a")` on one cell. -/
def normalizeCell (c : Option String) : String :=
  let filled := c.getD "n/a"
  if filled = "-4" then "n/a" else filled

/-- The column-specific transform applied after `astype(str)`:
`date_of_birth` keeps only the year, `sex` is mapped to M/F, all other
columns are untouched. -/
def transformCell (col : String) (s : String) : Option String :=
  if col = "date_of_birth" then extractYear s
  else if col = "sex" then sexMap s
  else some s

/-- The complete journey of one data cell of the participants table:
`astype(str)`, the column-specific transform, then `fillna`/`replace`
normalization. -/
def buildParticipantCell (col : String) (src : Option String) : String :=
  normalizeCell (transformCell col (astypeStr src))

/-- One row of the in-memory participants table: the derived
`participant_id` plus the named data cells. -/
structure PRow where
  pid : String
  cells : List (String × String)
deriving DecidableEq, Repr

/-- Modelled from the spec: the canonical-ID transform deriving a BIDS
participant identifier from the original AIBL study identifier
(`bids_id_factory(StudyName.AIBL).from_original_study_id`, whose source is
outside this tree); BIDS AIBL subject directories are named `sub-AIBL<id>`. -/
def bidsIdFromOriginal (x : String) : String :=
  "sub-AIBL" ++ x

/-- Assemble the participants table: each source row contributes its original
study identifier (the `alternative_id_1` column, turned into
`participant_id` and dropped) and one cell per specification column. -/
def buildParticipantTable (cols : List String)
    (srcRows : List (String × List (Option String))) : List PRow :=
  srcRows.map fun p =>
    { pid := bidsIdFromOriginal p.1
      cells := List.zipWith (fun c v => (c, buildParticipantCell c v)) cols p.2 }

/-- `participant_df.loc[subject] = "n/a"` on a fresh label followed by
`participant_df.loc[subject, "participant_id"] = subject`: a synthesized
all-`"n/a"` row for a BIDS subject without clinical data. -/
def naRow (cols : List String) (s : String) : PRow :=
  { pid := s, cells := cols.map fun c => (c, "n/a") }

/-- The BIDS subjects for which no row of the joined clinical table exists
(the loop `for subject in subjects_to_keep: if subject not in
participant_df.index`), in BIDS enumeration order. -/
def missingSubjects (rows : List PRow) (keep : List String) : List String :=
  keep.filter fun s => rows.all fun r => r.pid ≠ s

/-- The `delete_non_bids_info` reconciliation block of
`create_participants_tsv_file`: synthesize an all-`"n/a"` row for every BIDS
subject absent from the table (each with a warning, returned second), then
restrict via `participant_df.loc[subjects_to_keep]`, which selects, for each
BIDS subject in enumeration order, every row carrying that identifier. -/
def reconcile (cols : List String) (rows : List PRow) (keep : List String) :
    List PRow × List String :=
  let rows' := rows ++ (missingSubjects rows keep).map (naRow cols)
  (keep.flatMap fun s => rows'.filter fun r => r.pid = s,
   missingSubjects rows keep)

/-! ### Supporting lemmas for the participants table -/

theorem extractYearGo_length {l : List Char} {y : String}
    (h : extractYearGo l = some y) : y.length = 4 := by
  induction l with
  | nil => simp [extractYearGo] at h
  | cons c rest ih =>
    rw [extractYearGo] at h
    split at h
    · rename_i hc
      cases h
      simpa using hc.2.1
    · exact ih h

theorem astypeStr_ne_empty {src : Option String} (h : src ≠ some "") :
    astypeStr src ≠ "" := by
  cases src with
  | none => simp [astypeStr]
  | some v =>
    simp only [astypeStr]
    intro hv
    exact h (by rw [hv])

theorem buildParticipantCell_ne (col : String) (src : Option String)
    (h : src ≠ some "") :
    buildParticipantCell col src ≠ "-4" ∧ buildParticipantCell col src ≠ "" := by
  have hs : astypeStr src ≠ "" := astypeStr_ne_empty h
  unfold buildParticipantCell transformCell
  split
  · -- date_of_birth column: year extraction
    cases hy : extractYear (astypeStr src) with
    | none => simp [normalizeCell]
    | some y =>
      have hlen : y.length = 4 := extractYearGo_length hy
      simp only [normalizeCell, Option.getD_some]
      split
      · simp
      · rename_i hne
        refine ⟨hne, ?_⟩
        intro he
        rw [he] at hlen
        simp at hlen
  · split
    · -- sex column
      unfold sexMap
      split
      · simp [normalizeCell]
      · split
        · simp [normalizeCell]
        · simp [normalizeCell]
    · -- generic column
      simp only [normalizeCell, Option.getD_some]
      split
      · simp
      · rename_i hne
        exact ⟨hne, hs⟩

theorem mem_zipWith {α β γ : Type} {f : α → β → γ} :
    ∀ {l₁ : List α} {l₂ : List β} {x : γ}, x ∈ List.zipWith f l₁ l₂ →
      ∃ a b, a ∈ l₁ ∧ b ∈ l₂ ∧ x = f a b := by
  intro l₁
  induction l₁ with
  | nil => intro l₂ x hx; simp at hx
  | cons a t ih =>
    intro l₂ x hx
    cases l₂ with
    | nil => simp at hx
    | cons b t₂ =>
      simp only [List.zipWith_cons_cons, List.mem_cons] at hx
      rcases hx with rfl | hx
      · exact ⟨a, b, by simp, by simp, rfl⟩
      · obtain ⟨a', b', ha, hb, hx⟩ := ih hx
        exact ⟨a', b', by simp [ha], by simp [hb], hx⟩

theorem bidsIdFromOriginal_ne (x : String) :
    bidsIdFromOriginal x ≠ "-4" ∧ bidsIdFromOriginal x ≠ "" := by
  constructor
  · intro h
    have hlen := congrArg String.length h
    rw [bidsIdFromOriginal, String.length_append] at hlen
    have h8 : ("sub-AIBL" : String).length = 8 := rfl
    have h2 : ("-4" : String).length = 2 := rfl
    omega
  · intro h
    have hlen := congrArg String.length h
    rw [bidsIdFromOriginal, String.length_append] at hlen
    have h8 : ("sub-AIBL" : String).length = 8 := rfl
    have h0 : ("" : String).length = 0 := rfl
    omega

theorem mem_reconcile {cols : List String} {rows : List PRow}
    {keep : List String} {r : PRow}
    (hr : r ∈ (reconcile cols rows keep).1) :
    r.pid ∈ keep ∧ (r ∈ rows ∨ r ∈ (missingSubjects rows keep).map (naRow cols)) := by
  simp only [reconcile, List.mem_flatMap] at hr
  obtain ⟨s, hs, hmem⟩ := hr
  rw [List.mem_filter] at hmem
  have hpid : r.pid = s := by simpa using hmem.2
  refine ⟨hpid ▸ hs, ?_⟩
  rcases List.mem_append.1 hmem.1 with h | h
  · exact Or.inl h
  · exact Or.inr h

theorem pids_of_reconcile_input (cols : List String) (rows : List PRow)
    (keep : List String) :
    (rows ++ (missingSubjects rows keep).map (naRow cols)).map PRow.pid
      = rows.map PRow.pid ++ missingSubjects rows keep := by
  rw [List.map_append, List.map_map]
  congr 1
  have hcomp : PRow.pid ∘ naRow cols = id := by
    funext s
    rfl
  rw [hcomp, List.map_id]

theorem filter_pid_singleton :
    ∀ (l : List PRow), (l.map PRow.pid).Nodup →
      ∀ s, s ∈ l.map PRow.pid →
        (l.filter fun r => r.pid = s).map PRow.pid = [s] := by
  intro l
  induction l with
  | nil => intro _ s hs; simp at hs
  | cons r t ih =>
    intro hnd s hs
    simp only [List.map_cons, List.nodup_cons] at hnd
    rcases List.mem_cons.1 hs with heq | hmem
    · subst heq
      have hnone : t.filter (fun r' => r'.pid = r.pid) = [] := by
        rw [List.filter_eq_nil_iff]
        intro a ha
        simp only [decide_eq_true_eq]
        intro hpa
        exact hnd.1 (hpa ▸ List.mem_map_of_mem PRow.pid ha)
      rw [List.filter_cons]
      simp [hnone]
    · have hne : r.pid ≠ s := by
        intro h
        exact hnd.1 (h ▸ hmem)
      rw [List.filter_cons]
      simp only [decide_eq_true_eq]
      rw [if_neg hne]
      exact ih hnd.2 s hmem

theorem flatMap_pid_eq_self {f : String → List PRow} :
    ∀ (ks : List String), (∀ s ∈ ks, (f s).map PRow.pid = [s]) →
      (ks.flatMap f).map PRow.pid = ks := by
  intro ks
  induction ks with
  | nil => intro _; simp
  | cons k t ih =>
    intro h
    rw [List.flatMap_cons, List.map_append, h k (by simp),
      ih (fun s hs => h s (by simp [hs]))]
    rfl

/-- C1: with `delete_non_bids_info` enabled, the participants table's
`participant_id` column equals the BIDS `sub-*` directory list in
enumeration order (hence the identifier sets coincide); every row's
identifier is a BIDS subject (clinical-only subjects are dropped); every
BIDS subject with no clinical row appears as the synthesized all-`"n/a"`
row; and one warning is emitted per such synthesized subject. -/
theorem aibl_participants_reconcile_exact
    (cols : List String) (rows : List PRow) (keep : List String)
    (hk : keep.Nodup) (hr : (rows.map PRow.pid).Nodup) :
    ((reconcile cols rows keep).1.map PRow.pid = keep)
    ∧ (((reconcile cols rows keep).1.map PRow.pid).toFinset = keep.toFinset)
    ∧ (∀ r ∈ (reconcile cols rows keep).1, r.pid ∈ keep)
    ∧ (∀ s ∈ keep, (∀ r ∈ rows, r.pid ≠ s) →
        naRow cols s ∈ (reconcile cols rows keep).1)
    ∧ ((reconcile cols rows keep).2 = missingSubjects rows keep) := by
  have hmissing_nd : (missingSubjects rows keep).Nodup := hk.filter _
  have hpids := pids_of_reconcile_input cols rows keep
  have hdisj : ∀ x, x ∈ rows.map PRow.pid → x ∈ missingSubjects rows keep → False := by
    intro x hx hmx
    rw [missingSubjects, List.mem_filter] at hmx
    obtain ⟨r', hr', hpx⟩ := List.mem_map.1 hx
    have := List.all_eq_true.1 hmx.2 r' hr'
    simp only [decide_eq_true_eq] at this
    exact this hpx
  have hnd' : ((rows ++ (missingSubjects rows keep).map (naRow cols)).map PRow.pid).Nodup := by
    rw [hpids]
    exact List.Nodup.append hr hmissing_nd (fun x hx hmx => hdisj x hx hmx)
  have hmem' : ∀ s ∈ keep,
      s ∈ (rows ++ (missingSubjects rows keep).map (naRow cols)).map PRow.pid := by
    intro s hs
    rw [hpids, List.mem_append]
    by_cases hex : ∀ r ∈ rows, r.pid ≠ s
    · right
      rw [missingSubjects, List.mem_filter]
      refine ⟨hs, List.all_eq_true.2 fun r hrr => ?_⟩
      simpa using hex r hrr
    · left
      push_neg at hex
      obtain ⟨r', hr', hpx⟩ := hex
      exact hpx ▸ List.mem_map_of_mem PRow.pid hr'
  have horder : (reconcile cols rows keep).1.map PRow.pid = keep := by
    show ((keep.flatMap fun s =>
      (rows ++ (missingSubjects rows keep).map (naRow cols)).filter
        fun r => r.pid = s).map PRow.pid) = keep
    exact flatMap_pid_eq_self keep fun s hs =>
      filter_pid_singleton _ hnd' s (hmem' s hs)
  refine ⟨horder, by rw [horder], ?_, ?_, rfl⟩
  · intro r hrmem
    exact (mem_reconcile hrmem).1
  · intro s hs habs
    show naRow cols s ∈ keep.flatMap fun s' =>
      (rows ++ (missingSubjects rows keep).map (naRow cols)).filter
        fun r => r.pid = s'
    rw [List.mem_flatMap]
    refine ⟨s, hs, ?_⟩
    rw [List.mem_filter]
    constructor
    · rw [List.mem_append]
      right
      refine List.mem_map_of_mem _ ?_
      rw [missingSubjects, List.mem_filter]
      refine ⟨hs, List.all_eq_true.2 fun r hrr => ?_⟩
      simpa using habs r hrr
    · simp [naRow]

/-- Witness for C1 at a concrete instance: one clinical subject `1`
(present in BIDS) and one BIDS subject `sub-AIBL2` with no clinical row. -/
theorem aibl_participants_reconcile_exact_w :
    ((reconcile ["sex"] (buildParticipantTable ["sex"] [("1", [some "1"])])
        ["sub-AIBL1", "sub-AIBL2"]).1.map PRow.pid = ["sub-AIBL1", "sub-AIBL2"])
    ∧ (((reconcile ["sex"] (buildParticipantTable ["sex"] [("1", [some "1"])])
        ["sub-AIBL1", "sub-AIBL2"]).1.map PRow.pid).toFinset
          = (["sub-AIBL1", "sub-AIBL2"] : List String).toFinset)
    ∧ (∀ r ∈ (reconcile ["sex"] (buildParticipantTable ["sex"] [("1", [some "1"])])
        ["sub-AIBL1", "sub-AIBL2"]).1, r.pid ∈ ["sub-AIBL1", "sub-AIBL2"])
    ∧ (∀ s ∈ ["sub-AIBL1", "sub-AIBL2"],
        (∀ r ∈ buildParticipantTable ["sex"] [("1", [some "1"])], r.pid ≠ s) →
          naRow ["sex"] s ∈ (reconcile ["sex"]
            (buildParticipantTable ["sex"] [("1", [some "1"])])
            ["sub-AIBL1", "sub-AIBL2"]).1)
    ∧ ((reconcile ["sex"] (buildParticipantTable ["sex"] [("1", [some "1"])])
        ["sub-AIBL1", "sub-AIBL2"]).2
          = missingSubjects (buildParticipantTable ["sex"] [("1", [some "1"])])
              ["sub-AIBL1", "sub-AIBL2"]) :=
  aibl_participants_reconcile_exact ["sex"]
    (buildParticipantTable ["sex"] [("1", [some "1"])])
    ["sub-AIBL1", "sub-AIBL2"] (by decide) (by decide)

/-- C7: in the final participants table, no cell (identifier or data) equals
the study missing-value code `"-4"` or the empty string — every cell is a
plain string, so no NA remains — and the sex code is mapped `"1" ↦ "M"`,
`"2" ↦ "F"`, with every other value ending up as the sentinel `"n/a"`.
Source cells are `none` (pandas `NaN`) or non-empty, as produced by
`read_csv`, whose default NA handling turns empty fields into `NaN`. -/
theorem aibl_participants_no_sentinel
    (cols : List String) (srcRows : List (String × List (Option String)))
    (keep : List String)
    (hsrc : ∀ p ∈ srcRows, ∀ v ∈ p.2, v ≠ some "")
    (hkeep : ∀ s ∈ keep, s ≠ "-4" ∧ s ≠ "") :
    (∀ r ∈ (reconcile cols (buildParticipantTable cols srcRows) keep).1,
      (r.pid ≠ "-4" ∧ r.pid ≠ "") ∧ ∀ kv ∈ r.cells, kv.2 ≠ "-4" ∧ kv.2 ≠ "")
    ∧ buildParticipantCell "sex" (some "1") = "M"
    ∧ buildParticipantCell "sex" (some "2") = "F"
    ∧ (∀ v, v ≠ some "1" → v ≠ some "2" →
        buildParticipantCell "sex" v = "n/a") := by
  refine ⟨?_, rfl, rfl, ?_⟩
  · intro r hrmem
    obtain ⟨hkeep_mem, hsplit⟩ := mem_reconcile hrmem
    rcases hsplit with hbuilt | hna
    · obtain ⟨p, hp, hreq⟩ := List.mem_map.1 hbuilt
      subst hreq
      refine ⟨bidsIdFromOriginal_ne p.1, ?_⟩
      intro kv hkv
      obtain ⟨c, v, _, hv, hkveq⟩ := mem_zipWith hkv
      subst hkveq
      exact buildParticipantCell_ne c v (hsrc p hp v hv)
    · obtain ⟨s, hsmem, hreq⟩ := List.mem_map.1 hna
      subst hreq
      have hsk : s ∈ keep := by
        rw [missingSubjects, List.mem_filter] at hsmem
        exact hsmem.1
      refine ⟨hkeep s hsk, ?_⟩
      intro kv hkv
      obtain ⟨c, _, hkveq⟩ := List.mem_map.1 hkv
      subst hkveq
      exact ⟨by simp, by simp⟩
  · intro v hv1 hv2
    match v with
    | none => rfl
    | some s =>
      have hs1 : s ≠ "1" := fun h => hv1 (by rw [h])
      have hs2 : s ≠ "2" := fun h => hv2 (by rw [h])
      have htr : transformCell "sex" s = sexMap s := by
        simp [transformCell]
      simp only [buildParticipantCell, astypeStr]
      rw [htr]
      simp only [sexMap]
      rw [if_neg hs1, if_neg hs2]
      rfl

/-- Witness for C7 at a concrete instance: a source table with a `-4` cell,
a missing cell, and a subject synthesized from BIDS. -/
theorem aibl_participants_no_sentinel_w :
    (∀ r ∈ (reconcile ["sex", "mmse"]
        (buildParticipantTable ["sex", "mmse"] [("1", [some "9", some "-4"]), ("2", [none, some "30"])])
        ["sub-AIBL1", "sub-AIBL3"]).1,
      (r.pid ≠ "-4" ∧ r.pid ≠ "") ∧ ∀ kv ∈ r.cells, kv.2 ≠ "-4" ∧ kv.2 ≠ "")
    ∧ buildParticipantCell "sex" (some "1") = "M"
    ∧ buildParticipantCell "sex" (some "2") = "F"
    ∧ (∀ v, v ≠ some "1" → v ≠ some "2" →
        buildParticipantCell "sex" v = "n/a") :=
  aibl_participants_no_sentinel ["sex", "mmse"]
    [("1", [some "9", some "-4"]), ("2", [none, some "30"])]
    ["sub-AIBL1", "sub-AIBL3"] (by decide) (by decide)

/-! ## Sessions table (`create_sessions_tsv_file`, `_compute_age_at_exam`,
`_set_age_from_birth`, `_map_diagnosis`) -/

/-- Python truthiness of an optional string (`if birth_date and exam_date:`):
`None` and the empty string are falsy. -/
def truthyStr : Option String → Bool
  | none => false
  | some s => s ≠ ""

/-- Numeric value of a digit string (as a character list). -/
def digitsToNat (l : List Char) : Nat :=
  l.foldl (fun acc c => 10 * acc + (c.toNat - 48)) 0

/-- Split a character list at every `/`. -/
def splitOnSlash : List Char → List (List Char)
  | [] => [[]]
  | c :: rest =>
    if c = '/' then [] :: splitOnSlash rest
    else
      match splitOnSlash rest with
      | seg :: segs => (c :: seg) :: segs
      | [] => [[c]]

/-- `datetime.strptime(birth_date, "/%Y")`: a slash followed by exactly four
digits; the year is returned. Any other shape raises `ValueError` (`none`). -/
def parseBirthYear (s : String) : Option Nat :=
  match s.toList with
  | '/' :: rest =>
    if rest.length = 4 ∧ rest.all Char.isDigit then some (digitsToNat rest)
    else none
  | _ => none

/-- `datetime.strptime(exam_date, "%m/%d/%Y")`: one-or-two-digit month and
day (in range), four-digit year; returns (month, day, year). -/
def parseExamDate (s : String) : Option (Nat × Nat × Nat) :=
  match splitOnSlash s.toList with
  | [m, d, y] =>
    if (1 ≤ m.length ∧ m.length ≤ 2 ∧ m.all Char.isDigit
        ∧ 1 ≤ d.length ∧ d.length ≤ 2 ∧ d.all Char.isDigit
        ∧ y.length = 4 ∧ y.all Char.isDigit)
        ∧ (1 ≤ digitsToNat m ∧ digitsToNat m ≤ 12
            ∧ 1 ≤ digitsToNat d ∧ digitsToNat d ≤ 31) then
      some (digitsToNat m, digitsToNat d, digitsToNat y)
    else none
  | _ => none

/-- `_compute_age_at_exam`: when both dates are truthy, parse them (a bad
format raises, modelled as `.error`) and return exam year minus birth year;
otherwise return `None` without raising. -/
def computeAgeAtExam (birthDate examDate : Option String) : Except String (Option Int) :=
  if truthyStr birthDate && truthyStr examDate then
    match parseBirthYear (birthDate.getD ""), parseExamDate (examDate.getD "") with
    | some yb, some t => .ok (some ((t.2.2 : Int) - (yb : Int)))
    | _, _ => .error "time data does not match expected format"
  else .ok none

/-- One input row of `_set_age_from_birth` (the two columns it consumes). -/
structure SessRowIn where
  date_of_birth : Option String
  examination_date : Option String
deriving DecidableEq, Repr

/-- `df["date_of_birth"].ffill()`: each missing value takes the closest
non-missing value above it. -/
def ffillGo (last : Option String) : List SessRowIn → List SessRowIn
  | [] => []
  | r :: rest =>
    let b := r.date_of_birth.orElse fun _ => last
    { r with date_of_birth := b } :: ffillGo b rest

def ffillBirth (rows : List SessRowIn) : List SessRowIn :=
  ffillGo none rows

/-- `df["date_of_birth"].dropna().unique()`. -/
def distinctBirths (rows : List SessRowIn) : List String :=
  (rows.filterMap SessRowIn.date_of_birth).dedup

/-- `_set_age_from_birth`: when the subject has at most one distinct
non-missing birth date, forward-fill it and derive each row's age;
otherwise set every age to `None`. The birth-date column is dropped from
the result (each output row is `(examination_date, age)`). -/
def setAgeFromBirth (rows : List SessRowIn) :
    Except String (List (Option String × Option Int)) :=
  if (distinctBirths rows).length ≤ 1 then
    (ffillBirth rows).mapM fun r =>
      (computeAgeAtExam r.date_of_birth r.examination_date).map
        fun a => (r.examination_date, a)
  else .ok (rows.map fun r => (r.examination_date, none))

/-- A clinical cell of the sessions table: an integer or a string (`none`
models pandas missing values). -/
inductive Val where
  | intV : Int → Val
  | strV : String → Val
deriving DecidableEq, Repr

/-- One row of the per-subject sessions table: the index label, the
`session_id` column (missing for rows introduced by the clinical join) and
the named clinical cells. -/
structure SRow where
  label : String
  session_id : Option String
  cells : List (String × Option Val)
deriving DecidableEq, Repr

def getCell (r : SRow) (c : String) : Option Val :=
  (r.cells.lookup c).join

/-- `df[col] = value` on one row: overwrite the column, creating it when
absent. -/
def setCell (r : SRow) (c : String) (v : Option Val) : SRow :=
  { r with cells :=
      if r.cells.any fun p => p.1 = c then
        r.cells.map fun p => if p.1 = c then (p.1, v) else p
      else r.cells ++ [(c, v)] }

def dropCol (r : SRow) (c : String) : SRow :=
  { r with cells := r.cells.filter fun p => p.1 ≠ c }

/-- `pd.DataFrame({"session_id": get_sessions_...}).set_index("session_id",
drop=False)`: the table starts with one row per BIDS-known session. -/
def initialSessions (bids : List String) : List SRow :=
  bids.map fun s => { label := s, session_id := some s, cells := [] }

/-- `pd.concat([sessions, data], axis=1)`: an outer join on the index. Rows
of the running table gain the new column (missing when the extract has no
matching label); extract labels unknown to the table become new rows whose
`session_id` (and previous columns) are missing. -/
def concatExtract (tbl : List SRow) (col : String)
    (extract : List (String × Option Val)) : List SRow :=
  (tbl.map fun r => { r with cells := r.cells ++ [(col, (extract.lookup r.label).join)] })
  ++ ((extract.filter fun p => tbl.all fun r => r.label ≠ p.1).map
      fun p => { label := p.1, session_id := none, cells := [(col, p.2)] })

/-- Lexicographic comparison of character lists by code point, the order
Python uses on strings. -/
def charListLe : List Char → List Char → Bool
  | [], _ => true
  | _ :: _, [] => false
  | a :: as, b :: bs =>
    if a.toNat < b.toNat then true
    else if a.toNat = b.toNat then charListLe as bs
    else false

/-- `sessions.sort_index()`: stable ascending sort on the index labels. -/
def sortByLabel (t : List SRow) : List SRow :=
  t.insertionSort fun a b => charListLe a.label.toList b.label.toList = true

/-- `sessions.replace([-4, "-4", np.nan], None)` on one clinical cell. -/
def normVal (v : Option Val) : Option Val :=
  if v = some (.intV (-4)) ∨ v = some (.strV "-4") then none else v

/-- The same replacement on the string-valued `session_id` column. -/
def normSessionId : Option String → Option String
  | some t => if t = "-4" then none else some t
  | none => none

def normalizeRow (r : SRow) : SRow :=
  { label := r.label
    session_id := normSessionId r.session_id
    cells := r.cells.map fun p => (p.1, normVal p.2) }

/-- `_map_diagnosis`: the Python `==` comparisons only succeed on the
numeric codes 1, 2, 3; every other value (including a missing one) falls
through to `"n/a"`. -/
def mapDiagnosisVal : Option Val → String
  | some (.intV 1) => "CN"
  | some (.intV 2) => "MCI"
  | some (.intV 3) => "AD"
  | _ => "n/a"

/-- `sessions["diagnosis"] = sessions.diagnosis.apply(_map_diagnosis)`. -/
def applyDiagnosis (r : SRow) : SRow :=
  setCell r "diagnosis" (some (.strV (mapDiagnosisVal (getCell r "diagnosis"))))

/-- Python truthiness of a cell value. -/
def valTruthy : Option Val → Bool
  | none => false
  | some (.intV i) => i ≠ 0
  | some (.strV s) => s ≠ ""

/-- `_complete_examination_dates`: keep a truthy examination date; otherwise
look the date up in the auxiliary CSV files (abstracted by `alt`) using the
row's `session_id`; with no `session_id` the date stays missing. -/
def completeExamDates (alt : String → Option String) (r : SRow) : SRow :=
  let exam := getCell r "examination_date"
  let newExam : Option Val :=
    if valTruthy exam then exam
    else
      match r.session_id with
      | some s => (alt s).map Val.strV
      | none => none
  setCell r "examination_date" newExam

/-- `_compute_age_at_exam` applied to table cells: `strptime` on a
non-string (integer) cell raises a `TypeError`, which the converter does
not catch. -/
def computeAgeVal (birth exam : Option Val) : Except String (Option Int) :=
  if valTruthy birth && valTruthy exam then
    match birth, exam with
    | some (.strV b), some (.strV e) => computeAgeAtExam (some b) (some e)
    | _, _ => .error "TypeError: strptime() argument 1 must be str"
  else .ok none

def distinctBirthVals (t : List SRow) : List Val :=
  (t.filterMap fun r => getCell r "date_of_birth").dedup

def ffillBirthValGo (last : Option Val) : List SRow → List SRow
  | [] => []
  | r :: rest =>
    let b := (getCell r "date_of_birth").orElse fun _ => last
    setCell r "date_of_birth" b :: ffillBirthValGo b rest

def ffillBirthVal (t : List SRow) : List SRow :=
  ffillBirthValGo none t

/-- One row of `_set_age_from_birth` on the sessions table: compute the
age, store it in the `age` column, drop `date_of_birth`. -/
def ageRow (r : SRow) : Except String SRow :=
  (computeAgeVal (getCell r "date_of_birth") (getCell r "examination_date")).map
    fun a => dropCol (setCell r "age" (a.map Val.intV)) "date_of_birth"

/-- A column is present in the table when some row carries a cell for it. -/
def hasCol (t : List SRow) (c : String) : Bool :=
  t.any fun r => r.cells.any fun p => p.1 = c

/-- `_set_age_from_birth` at table level: raise when the two date columns
are absent, then derive the age (unambiguous birth date) or leave it
missing everywhere, dropping `date_of_birth` either way. -/
def setAgeTable (t : List SRow) : Except String (List SRow) :=
  if hasCol t "date_of_birth" && hasCol t "examination_date" then
    if (distinctBirthVals t).length ≤ 1 then
      (ffillBirthVal t).mapM ageRow
    else .ok (t.map fun r => dropCol (setCell r "age" none) "date_of_birth")
  else .error "Columns date_of_birth or/and examination_date were not found"

/-- `sessions.fillna("n/a")` on one row. -/
def fillnaRow (r : SRow) : SRow :=
  { r with cells := r.cells.map fun p => (p.1, some (p.2.getD (.strV "n/a"))) }

/-- The per-subject body of `create_sessions_tsv_file`: build the session
index from the BIDS-known sessions, join every specification extract,
sort, normalize missing values, map the diagnosis, complete examination
dates, derive the age, drop rows whose `session_id` is missing
(clinical-only sessions), and fill the remaining gaps with `"n/a"`. -/
def createSessionsForSubject (bids : List String)
    (extracts : List (String × List (String × Option Val)))
    (alt : String → Option String) : Except String (List SRow) := do
  let t1 := extracts.foldl (fun t e => concatExtract t e.1 e.2) (initialSessions bids)
  let t3 := ((sortByLabel t1).map normalizeRow).map applyDiagnosis
  let t4 := t3.map (completeExamDates alt)
  let t5 ← setAgeTable t4
  pure ((t5.filter fun r => r.session_id.isSome).map fillnaRow)

/-! ### Supporting lemmas for the sessions table -/

/-- The invariant carried through the per-subject session pipeline: a row
with a present `session_id` comes from a BIDS-known session, and the number
of such rows never exceeds the BIDS session count. -/
def sessInv (bids : List String) (t : List SRow) : Prop :=
  (∀ r ∈ t, r.session_id.isSome = true → r.label ∈ bids)
  ∧ t.countP (fun r => r.session_id.isSome) ≤ bids.length

theorem sessInv_initial (bids : List String) : sessInv bids (initialSessions bids) := by
  constructor
  · intro r hr _
    obtain ⟨s, hs, rfl⟩ := List.mem_map.1 hr
    exact hs
  · rw [initialSessions, List.countP_map]
    exact List.countP_le_length _

theorem sessInv_concat {bids : List String} {t : List SRow}
    (h : sessInv bids t) (col : String) (extract : List (String × Option Val)) :
    sessInv bids (concatExtract t col extract) := by
  constructor
  · intro r hr hs
    rw [concatExtract, List.mem_append] at hr
    rcases hr with hr | hr
    · obtain ⟨r', hr', rfl⟩ := List.mem_map.1 hr
      exact h.1 r' hr' hs
    · obtain ⟨p, _, rfl⟩ := List.mem_map.1 hr
      simp at hs
  · rw [concatExtract, List.countP_append, List.countP_map]
    have hnew : ((extract.filter fun p => t.all fun r => r.label ≠ p.1).map
        fun p => { label := p.1, session_id := none, cells := [(col, p.2)] : SRow }).countP
          (fun r => r.session_id.isSome) = 0 := by
      rw [List.countP_eq_zero]
      intro r hr
      obtain ⟨p, _, rfl⟩ := List.mem_map.1 hr
      simp
    rw [hnew, Nat.add_zero]
    exact le_trans (le_of_eq rfl) h.2

theorem sessInv_map {bids : List String} {f : SRow → SRow}
    (hf : ∀ r, (f r).label = r.label ∧
      ((f r).session_id.isSome = true → r.session_id.isSome = true))
    {t : List SRow} (h : sessInv bids t) : sessInv bids (t.map f) := by
  constructor
  · intro r' hr' hs
    obtain ⟨r, hr, rfl⟩ := List.mem_map.1 hr'
    rw [(hf r).1]
    exact h.1 r hr ((hf r).2 hs)
  · rw [List.countP_map]
    exact le_trans (List.countP_mono_left fun r _ hs => (hf r).2 hs) h.2

theorem sessInv_perm {bids : List String} {t t' : List SRow}
    (hp : t.Perm t') (h : sessInv bids t) : sessInv bids t' := by
  exact ⟨fun r hr => h.1 r (hp.mem_iff.2 hr), (hp.countP_eq _) ▸ h.2⟩

theorem setCell_label (r : SRow) (c : String) (v : Option Val) :
    (setCell r c v).label = r.label ∧ (setCell r c v).session_id = r.session_id := by
  constructor <;> rfl

theorem dropCol_label (r : SRow) (c : String) :
    (dropCol r c).label = r.label ∧ (dropCol r c).session_id = r.session_id := by
  constructor <;> rfl

theorem normalizeRow_inv (r : SRow) :
    (normalizeRow r).label = r.label ∧
      ((normalizeRow r).session_id.isSome = true → r.session_id.isSome = true) := by
  refine ⟨rfl, ?_⟩
  cases hsid : r.session_id with
  | none => simp [normalizeRow, normSessionId, hsid]
  | some s => simp

/-- `ageRow` only rewrites the `age` and `date_of_birth` columns. -/
theorem ageRow_preserves {r r' : SRow} (h : ageRow r = .ok r') :
    r'.label = r.label ∧ r'.session_id = r.session_id := by
  rw [ageRow] at h
  cases hc : computeAgeVal (getCell r "date_of_birth") (getCell r "examination_date") with
  | error e => rw [hc] at h; cases h
  | ok a =>
    rw [hc] at h
    cases h
    exact ⟨rfl, rfl⟩

theorem mapM_ageRow_preserves :
    ∀ {t out : List SRow}, t.mapM ageRow = .ok out →
      (∀ r' ∈ out, ∃ r ∈ t, r'.label = r.label ∧ r'.session_id = r.session_id)
      ∧ out.countP (fun r => r.session_id.isSome)
          = t.countP (fun r => r.session_id.isSome) := by
  intro t
  induction t with
  | nil =>
    intro out h
    cases h
    exact ⟨by simp, rfl⟩
  | cons r rest ih =>
    intro out h
    rw [List.mapM_cons] at h
    cases hr : ageRow r with
    | error e => rw [hr] at h; cases h
    | ok r' =>
      rw [hr] at h
      cases hrest : rest.mapM ageRow with
      | error e => rw [hrest] at h; cases h
      | ok out' =>
        rw [hrest] at h
        cases h
        obtain ⟨hmem, hcount⟩ := ih hrest
        obtain ⟨hl, hs⟩ := ageRow_preserves hr
        constructor
        · intro x hx
          rcases List.mem_cons.1 hx with rfl | hx
          · exact ⟨r, by simp, hl, hs⟩
          · obtain ⟨r₀, hr₀, hp⟩ := hmem x hx
            exact ⟨r₀, by simp [hr₀], hp⟩
        · rw [List.countP_cons, List.countP_cons, hcount, hs]

theorem ffillGo_mem {last : Option Val} :
    ∀ {t : List SRow}, ∀ x ∈ ffillBirthValGo last t,
      ∃ r ∈ t, x.label = r.label ∧ x.session_id = r.session_id := by
  intro t
  induction t generalizing last with
  | nil => intro x hx; simp [ffillBirthValGo] at hx
  | cons r rest ih =>
    intro x hx
    simp only [ffillBirthValGo] at hx
    rcases List.mem_cons.1 hx with rfl | hx
    · exact ⟨r, by simp, (setCell_label r _ _).1, (setCell_label r _ _).2⟩
    · obtain ⟨r₀, hr₀, hp⟩ := ih x hx
      exact ⟨r₀, by simp [hr₀], hp⟩

theorem ffillGo_countP (last : Option Val) :
    ∀ t : List SRow, (ffillBirthValGo last t).countP (fun r => r.session_id.isSome)
      = t.countP (fun r => r.session_id.isSome) := by
  intro t
  induction t generalizing last with
  | nil => simp [ffillBirthValGo]
  | cons r rest ih =>
    simp only [ffillBirthValGo, List.countP_cons]
    rw [ih, (setCell_label r _ _).2]

theorem sessInv_ffill {bids : List String} {t : List SRow}
    (h : sessInv bids t) : sessInv bids (ffillBirthVal t) := by
  constructor
  · intro x hx hs
    obtain ⟨r, hr, hl, hsid⟩ := ffillGo_mem x hx
    rw [hl]
    exact h.1 r hr (hsid ▸ hs)
  · rw [ffillBirthVal, ffillGo_countP]
    exact h.2

theorem sessInv_setAgeTable {bids : List String} {t out : List SRow}
    (h : sessInv bids t) (hst : setAgeTable t = .ok out) : sessInv bids out := by
  rw [setAgeTable] at hst
  split at hst
  · split at hst
    · -- unambiguous birth date: forward-fill then mapM ageRow
      have hff : sessInv bids (ffillBirthVal t) := sessInv_ffill h
      obtain ⟨hmem, hcount⟩ := mapM_ageRow_preserves hst
      constructor
      · intro r' hr' hs
        obtain ⟨r, hr, hl, hsid⟩ := hmem r' hr'
        rw [hl]
        exact hff.1 r hr (hsid ▸ hs)
      · rw [hcount]
        exact hff.2
    · -- ambiguous birth dates: ages set to missing
      cases hst
      refine sessInv_map (fun r => ?_) h
      refine ⟨rfl, fun hs => ?_⟩
      rw [(dropCol_label _ _).2, (setCell_label r "age" none).2] at hs
      exact hs
  · cases hst

/-- C6: the session diagnosis mapping (after `-4`/NaN normalization) sends
1, 2, 3 to `"CN"`, `"MCI"`, `"AD"` and everything else — 4, the missing
code -4 (as integer or string), and a missing value — to `"n/a"`. -/
theorem aibl_diagnosis_mapping :
    mapDiagnosisVal (normVal (some (.intV 1))) = "CN"
    ∧ mapDiagnosisVal (normVal (some (.intV 2))) = "MCI"
    ∧ mapDiagnosisVal (normVal (some (.intV 3))) = "AD"
    ∧ mapDiagnosisVal (normVal (some (.intV 4))) = "n/a"
    ∧ mapDiagnosisVal (normVal (some (.intV (-4)))) = "n/a"
    ∧ mapDiagnosisVal (normVal (some (.strV "-4"))) = "n/a"
    ∧ mapDiagnosisVal (normVal none) = "n/a"
    ∧ normVal (some (.intV (-4))) = none
    ∧ normVal (some (.strV "-4")) = none := by
  refine ⟨rfl, rfl, rfl, rfl, ?_, ?_, rfl, ?_, ?_⟩ <;> decide

theorem sessInv_foldl {bids : List String} :
    ∀ (extracts : List (String × List (String × Option Val))) (t0 : List SRow),
      sessInv bids t0 →
        sessInv bids (extracts.foldl (fun t e => concatExtract t e.1 e.2) t0) := by
  intro extracts
  induction extracts with
  | nil => intro t0 h; simpa using h
  | cons e rest ih =>
    intro t0 h
    rw [List.foldl_cons]
    exact ih _ (sessInv_concat h e.1 e.2)

/-- C5: whenever the per-subject session pipeline succeeds, every emitted
row belongs to a BIDS-known session of the subject, and the number of
emitted rows is at most the number of BIDS-known sessions. -/
theorem aibl_sessions_subset_bids (bids : List String)
    (extracts : List (String × List (String × Option Val)))
    (alt : String → Option String) (out : List SRow)
    (h : createSessionsForSubject bids extracts alt = .ok out) :
    (∀ r ∈ out, r.label ∈ bids) ∧ out.length ≤ bids.length := by
  rw [createSessionsForSubject] at h
  have hfold : sessInv bids (extracts.foldl
      (fun t e => concatExtract t e.1 e.2) (initialSessions bids)) :=
    sessInv_foldl extracts (initialSessions bids) (sessInv_initial bids)
  set t1 := extracts.foldl (fun t e => concatExtract t e.1 e.2)
    (initialSessions bids) with ht1
  have hsorted : sessInv bids (sortByLabel t1) :=
    sessInv_perm (List.perm_insertionSort _ t1).symm hfold
  have ht3 : sessInv bids (((sortByLabel t1).map normalizeRow).map applyDiagnosis) := by
    refine sessInv_map (fun r => ?_) (sessInv_map normalizeRow_inv hsorted)
    exact ⟨(setCell_label _ _ _).1, fun hs => (setCell_label r "diagnosis" _).2 ▸ hs⟩
  have ht4 : sessInv bids ((((sortByLabel t1).map normalizeRow).map applyDiagnosis).map
      (completeExamDates alt)) := by
    refine sessInv_map (fun r => ?_) ht3
    refine ⟨(setCell_label _ _ _).1, fun hs => ?_⟩
    rw [completeExamDates] at hs
    exact (setCell_label r "examination_date" _).2 ▸ hs
  cases hst : setAgeTable ((((sortByLabel t1).map normalizeRow).map applyDiagnosis).map
      (completeExamDates alt)) with
  | error e =>
    rw [hst] at h
    cases h
  | ok t5 =>
    rw [hst] at h
    simp only [bind, Except.bind, pure, Except.pure] at h
    cases h
    have ht5 : sessInv bids t5 := sessInv_setAgeTable ht4 hst
    constructor
    · intro r hr
      obtain ⟨r₀, hr₀, rfl⟩ := List.mem_map.1 hr
      rw [List.mem_filter] at hr₀
      have : (fillnaRow r₀).label = r₀.label := rfl
      rw [this]
      exact ht5.1 r₀ hr₀.1 (by simpa using hr₀.2)
    · rw [List.length_map]
      calc (t5.filter fun r => r.session_id.isSome).length
          = t5.countP fun r => r.session_id.isSome :=
            (List.countP_eq_length_filter _ _).symm
        _ ≤ bids.length := ht5.2

/-- Witness for C5: a subject with one BIDS session `ses-M000` while the
diagnosis extract carries an extra visit `ses-M018` unknown to BIDS; the
emitted table keeps only `ses-M000`. -/
theorem aibl_sessions_subset_bids_w :
    (∀ r ∈ [(⟨"ses-M000", some "ses-M000",
        [("diagnosis", some (Val.strV "CN")),
         ("examination_date", some (Val.strV "06/15/2010")),
         ("age", some (Val.intV 60))]⟩ : SRow)],
      r.label ∈ ["ses-M000"])
    ∧ ([(⟨"ses-M000", some "ses-M000",
        [("diagnosis", some (Val.strV "CN")),
         ("examination_date", some (Val.strV "06/15/2010")),
         ("age", some (Val.intV 60))]⟩ : SRow)]).length
        ≤ (["ses-M000"] : List String).length :=
  aibl_sessions_subset_bids ["ses-M000"]
    [("diagnosis", [("ses-M000", some (.intV 1)), ("ses-M018", some (.intV 2))]),
     ("examination_date", [("ses-M000", some (.strV "06/15/2010"))]),
     ("date_of_birth", [("ses-M000", some (.strV "/1950"))])]
    (fun _ => none) _ (by rfl)

/-- C4: the derived age is the exam year minus the birth year (e.g. birth
`"/1950"` with exam `"06/15/2010"` gives 60); an absent input yields an
unresolved age, not an exception; any successfully derived age is exactly
the difference of the two parsed years; with two or more distinct
non-missing birth dates every row's age is unresolved; and the birth-date
column is dropped (output rows are `(examination_date, age)` pairs). -/
theorem aibl_age_from_birth :
    (computeAgeAtExam (some "/1950") (some "06/15/2010") = .ok (some 60))
    ∧ (∀ e, computeAgeAtExam none e = .ok none)
    ∧ (∀ b, computeAgeAtExam b none = .ok none)
    ∧ (∀ b e a, computeAgeAtExam b e = .ok (some a) →
        ∃ yb t, parseBirthYear (b.getD "") = some yb
          ∧ parseExamDate (e.getD "") = some t
          ∧ a = (t.2.2 : Int) - (yb : Int))
    ∧ (∀ rows, 2 ≤ (distinctBirths rows).length →
        setAgeFromBirth rows = .ok (rows.map fun r => (r.examination_date, none)))
    ∧ (setAgeFromBirth [⟨some "/1950", some "06/15/2010"⟩]
        = .ok [(some "06/15/2010", some 60)]) := by
  refine ⟨rfl, ?_, ?_, ?_, ?_, rfl⟩
  · intro e
    rfl
  · intro b
    rw [computeAgeAtExam]
    have ht : truthyStr none = false := rfl
    rw [ht, Bool.and_false]
    rfl
  · intro b e a h
    rw [computeAgeAtExam] at h
    split at h
    · cases hb : parseBirthYear (b.getD "") with
      | none =>
        rw [hb] at h
        simp at h
      | some yb =>
        cases he : parseExamDate (e.getD "") with
        | none =>
          rw [hb, he] at h
          simp at h
        | some t =>
          rw [hb, he] at h
          simp only [Except.ok.injEq, Option.some.injEq] at h
          exact ⟨yb, t, rfl, rfl, h.symm⟩
    · simp at h
  · intro rows h2
    rw [setAgeFromBirth, if_neg (by omega)]

/-- Witness for C4: the two-distinct-birth-dates branch at a concrete
two-row table. -/
theorem aibl_age_from_birth_w :
    setAgeFromBirth [⟨some "/1950", some "06/15/2010"⟩, ⟨some "/1951", some "01/01/2000"⟩]
      = .ok ([⟨some "/1950", some "06/15/2010"⟩,
              (⟨some "/1951", some "01/01/2000"⟩ : SessRowIn)].map
          fun r => (r.examination_date, none)) :=
  aibl_age_from_birth.2.2.2.2.1
    [⟨some "/1950", some "06/15/2010"⟩, ⟨some "/1951", some "01/01/2000"⟩]
    (by decide)

/-! ## Scans tables (`_create_scans_dict`, `_handle_flutemeta_badline`,
`_format_time`, `_write_scans_tsv`) -/

/-- One mapping row of the scans specification table (`scans.tsv`): the
AIBL source column, the BIDS target field and the modality group. -/
structure ScanSpecRow where
  sourceCol : String
  bidsField : String
  modality : String
deriving DecidableEq, Repr

/-- One row of a parsed clinical source file, keyed by `RID` and the
session label derived from its `VISCODE`. -/
structure FileRow where
  rid : Int
  session : String
  cells : List (String × Option String)
deriving DecidableEq, Repr

/-- Dictionary lookup (first match) for string-keyed association lists. -/
def lookupKV {β : Type} (key : String) : List (String × β) → Option β
  | [] => none
  | (k, v) :: rest => if key = k then some v else lookupKV key rest

def getFileCol (fr : FileRow) (c : String) : Option String :=
  (lookupKV c fr.cells).join

/-- Left-pad a number with zeros to two digits, as `strftime` does. -/
def pad2 (n : Nat) : String :=
  if n < 10 then "0" ++ toString n else toString n

/-- `_format_time`: parse `"MM/DD/YYYY"` and format it as the ISO local
timestamp `"YYYY-MM-DDTHH:MM:SS"` (midnight); a bad date raises
`ValueError` (`none`). -/
def formatTime (s : String) : Option String :=
  (parseExamDate s).map fun t =>
    toString t.2.2 ++ "-" ++ pad2 t.1 ++ "-" ++ pad2 t.2.1 ++ "T00:00:00"

/-- The `try` block of `_create_scans_dict` for one specification row and
one (subject, session) pair: `.item()` succeeds only when exactly one
source row matches the subject's `RID` and the session; a `-4` value
becomes the sentinel; an `acq_time` field is reformatted (a `ValueError`
from the reformat is caught and yields the sentinel, but a missing
`acq_time` cell reaches `strptime` as a non-string and raises an uncaught
`TypeError`); zero or multiple matches raise the `ValueError` that the
`except` turns into the sentinel. -/
def computeScanValue (file : List FileRow) (rid : Int) (session : String)
    (row : ScanSpecRow) : Except String (Option String) :=
  match file.filter fun fr => fr.rid = rid ∧ fr.session = session with
  | [fr] =>
    let v := getFileCol fr row.sourceCol
    if v = some "-4" then .ok (some "n/a")
    else if row.bidsField = "acq_time" then
      match v with
      | some s =>
        match formatTime s with
        | some t => .ok (some t)
        | none => .ok (some "n/a")
      | none => .error "TypeError: strptime() argument 1 must be str"
    else .ok v
  | _ => .ok (some "n/a")

/-- One modality group's accumulated field map. -/
abbrev Slot := List (String × Option String)

/-- The guarded write into a modality dictionary: `modality[key] = value`
only when the key is absent or currently holds the sentinel `"n/a"`. -/
def writeSlot (slot : Slot) (key : String) (val : Option String) : Slot :=
  match lookupKV key slot with
  | none => slot ++ [(key, val)]
  | some v =>
    if v = some "n/a" then slot.map fun p => if p.1 = key then (key, val) else p
    else slot

/-- Write into the selected modality group of a (subject, session) entry
(the four groups are pre-initialized by `_init_scans_dict`; specification
rows reference these groups). -/
def writeModality (st : List (String × Slot)) (mod key : String)
    (val : Option String) : List (String × Slot) :=
  st.map fun p => if p.1 = mod then (p.1, writeSlot p.2 key val) else p

/-- The effect of `_create_scans_dict`'s loop over specification rows on
one (subject, session) entry: each row looks up its value in its source
file (`fileFor`) and performs the guarded write. -/
def processScansForPair (fileFor : ScanSpecRow → List FileRow) (rid : Int)
    (session : String) : List ScanSpecRow → List (String × Slot) →
      Except String (List (String × Slot))
  | [], st => .ok st
  | row :: rest, st =>
    match computeScanValue (fileFor row) rid session row with
    | .error e => .error e
    | .ok v => processScansForPair fileFor rid session rest
        (writeModality st row.modality row.bidsField v)

def getSlotVal (st : List (String × Slot)) (mod key : String) :
    Option (Option String) :=
  (lookupKV mod st).bind fun slot => lookupKV key slot

/-! ### Supporting lemmas for the scans dictionary -/

theorem lookupKV_append_right {β : Type} {key : String}
    {l₁ : List (String × β)} (h : lookupKV key l₁ = none) (l₂ : List (String × β)) :
    lookupKV key (l₁ ++ l₂) = lookupKV key l₂ := by
  induction l₁ with
  | nil => rfl
  | cons p rest ih =>
    obtain ⟨k, v⟩ := p
    rw [lookupKV] at h
    split at h
    · cases h
    · rename_i hne
      rw [List.cons_append, lookupKV, if_neg hne]
      exact ih h

theorem lookupKV_append_left {β : Type} {key : String}
    {l₁ : List (String × β)} {w : β} (h : lookupKV key l₁ = some w)
    (l₂ : List (String × β)) : lookupKV key (l₁ ++ l₂) = some w := by
  induction l₁ with
  | nil => cases h
  | cons p rest ih =>
    obtain ⟨k, v⟩ := p
    rw [lookupKV] at h
    rw [List.cons_append, lookupKV]
    split at h
    · rename_i hke
      rw [if_pos hke, h]
    · rename_i hke
      rw [if_neg hke]
      exact ih h

theorem lookupKV_map_overwrite {key key' : String} {val : Option String} :
    ∀ (slot : Slot),
      lookupKV key (slot.map fun p => if p.1 = key' then (key', val) else p)
        = if key = key' ∧ (lookupKV key slot).isSome then some val
          else lookupKV key slot := by
  intro slot
  induction slot with
  | nil => simp [lookupKV]
  | cons p rest ih =>
    obtain ⟨k, v⟩ := p
    rw [List.map_cons]
    by_cases hk : k = key'
    · rw [if_pos hk, lookupKV]
      by_cases hkey : key = key'
      · rw [if_pos hkey, lookupKV, if_pos (hkey.trans hk.symm),
          if_pos ⟨hkey, rfl⟩]
      · rw [if_neg hkey, ih, lookupKV,
          if_neg (show ¬key = k from fun h => hkey (h.trans hk))]
    · rw [if_neg hk, lookupKV]
      by_cases hkey : key = k
      · rw [if_pos hkey, lookupKV, if_pos hkey,
          if_neg (show ¬(key = key' ∧ (some v).isSome = true) from
            fun hc => hk ((hkey.symm.trans hc.1 : k = key')))]
      · rw [if_neg hkey, ih, lookupKV, if_neg hkey]

theorem writeSlot_keeps {slot : Slot} {key : String} {v : Option String}
    (hv : lookupKV key slot = some v) (hvne : v ≠ some "n/a")
    (val : Option String) : lookupKV key (writeSlot slot key val) = some v := by
  simp only [writeSlot, hv]
  rw [if_neg hvne]
  exact hv

theorem writeSlot_writes_absent {slot : Slot} {key : String}
    (h : lookupKV key slot = none) (val : Option String) :
    lookupKV key (writeSlot slot key val) = some val := by
  simp only [writeSlot, h]
  rw [lookupKV_append_right h, lookupKV, if_pos rfl]

theorem writeSlot_writes_sentinel {slot : Slot} {key : String}
    (h : lookupKV key slot = some (some "n/a")) (val : Option String) :
    lookupKV key (writeSlot slot key val) = some val := by
  simp only [writeSlot, h]
  rw [if_pos trivial, lookupKV_map_overwrite slot, if_pos ⟨rfl, by rw [h]; rfl⟩]

theorem writeSlot_lookup_ne (slot : Slot) (key' : String) (val : Option String)
    {key : String} (hkk : key ≠ key') :
    lookupKV key (writeSlot slot key' val) = lookupKV key slot := by
  cases hlk : lookupKV key' slot with
  | none =>
    simp only [writeSlot, hlk]
    cases hmem : lookupKV key slot with
    | none =>
      rw [lookupKV_append_right hmem, lookupKV, if_neg hkk]
      rfl
    | some w =>
      exact lookupKV_append_left hmem _
  | some w =>
    simp only [writeSlot, hlk]
    split
    · rw [lookupKV_map_overwrite slot, if_neg (fun hc => hkk hc.1)]
    · rfl

theorem writeModality_keeps {mod key : String} {v : Option String}
    (mod' key' : String) (val : Option String) :
    ∀ {st : List (String × Slot)}, getSlotVal st mod key = some v →
      v ≠ some "n/a" →
      getSlotVal (writeModality st mod' key' val) mod key = some v := by
  intro st
  induction st with
  | nil =>
    intro hv _
    simp [getSlotVal, lookupKV] at hv
  | cons p rest ih =>
    intro hv hvne
    obtain ⟨k, slot⟩ := p
    rw [getSlotVal, lookupKV] at hv
    rw [writeModality, List.map_cons]
    by_cases hm : mod = k
    · rw [if_pos hm, Option.some_bind] at hv
      by_cases hp : k = mod'
      · rw [if_pos hp, getSlotVal, lookupKV, if_pos hm, Option.some_bind]
        by_cases hkk : key = key'
        · subst hkk
          exact writeSlot_keeps hv hvne val
        · rw [writeSlot_lookup_ne slot key' val hkk]
          exact hv
      · rw [if_neg hp, getSlotVal, lookupKV, if_pos hm, Option.some_bind]
        exact hv
    · rw [if_neg hm] at hv
      have htail : getSlotVal rest mod key = some v := by
        rw [getSlotVal]
        exact hv
      have := ih htail hvne
      rw [writeModality] at this
      by_cases hp : k = mod'
      · rw [if_pos hp, getSlotVal, lookupKV, if_neg hm]
        rw [getSlotVal] at this
        exact this
      · rw [if_neg hp, getSlotVal, lookupKV, if_neg hm]
        rw [getSlotVal] at this
        exact this

theorem writeModality_fst (st : List (String × Slot)) (mod key : String)
    (val : Option String) :
    (writeModality st mod key val).map Prod.fst = st.map Prod.fst := by
  rw [writeModality, List.map_map]
  induction st with
  | nil => rfl
  | cons p rest ih =>
    rw [List.map_cons, List.map_cons, ih]
    by_cases hp : p.1 = mod
    · simp [Function.comp, hp]
    · simp [Function.comp, hp]

/-- C3: in the scans-dictionary accumulation, a slot already holding a
non-sentinel value is never changed by any later mapping row, whatever that
row computes, while a slot that is absent or holds the sentinel `"n/a"` is
written. -/
theorem aibl_scans_write_once :
    (∀ (fileFor : ScanSpecRow → List FileRow) (rid : Int) (session : String)
        (rows : List ScanSpecRow) (st out : List (String × Slot))
        (mod key : String) (v : Option String),
      getSlotVal st mod key = some v → v ≠ some "n/a" →
      processScansForPair fileFor rid session rows st = .ok out →
      getSlotVal out mod key = some v)
    ∧ (∀ (slot : Slot) (key : String) (val : Option String),
        lookupKV key slot = some (some "n/a") →
        lookupKV key (writeSlot slot key val) = some val)
    ∧ (∀ (slot : Slot) (key : String) (val : Option String),
        lookupKV key slot = none →
        lookupKV key (writeSlot slot key val) = some val) := by
  refine ⟨?_, ?_, ?_⟩
  · intro fileFor rid session rows
    induction rows with
    | nil =>
      intro st out mod key v hv hvne hp
      rw [processScansForPair] at hp
      cases hp
      exact hv
    | cons row rest ih =>
      intro st out mod key v hv hvne hp
      rw [processScansForPair] at hp
      cases hc : computeScanValue (fileFor row) rid session row with
      | error e =>
        rw [hc] at hp
        cases hp
      | ok v' =>
        rw [hc] at hp
        exact ih _ out mod key v
          (writeModality_keeps row.modality row.bidsField v' hv hvne) hvne hp
  · intro slot key val h
    exact writeSlot_writes_sentinel h val
  · intro slot key val h
    exact writeSlot_writes_absent h val

/-- Witness for C3: a slot holding `"25"` for field `mmse` survives a later
mapping row that resolves to `"30"` for the same modality group and field;
a sentinel-holding slot and an absent slot are overwritten. -/
theorem aibl_scans_write_once_w :
    getSlotVal [("T1/DWI/fMRI/FMAP", [("mmse", some "25")])] "T1/DWI/fMRI/FMAP" "mmse"
        = some (some "25")
    ∧ lookupKV "mmse" (writeSlot [("mmse", some "n/a")] "mmse" (some "30"))
        = some (some "30")
    ∧ lookupKV "mmse" (writeSlot [] "mmse" (some "30")) = some (some "30") :=
  ⟨aibl_scans_write_once.1
      (fun _ => [⟨1, "ses-M000", [("MMSCORE", some "30")]⟩]) 1 "ses-M000"
      [⟨"MMSCORE", "mmse", "T1/DWI/fMRI/FMAP"⟩]
      [("T1/DWI/fMRI/FMAP", [("mmse", some "25")])]
      [("T1/DWI/fMRI/FMAP", [("mmse", some "25")])]
      "T1/DWI/fMRI/FMAP" "mmse" (some "25") rfl (by decide) rfl,
   aibl_scans_write_once.2.1 [("mmse", some "n/a")] "mmse" (some "30") rfl,
   aibl_scans_write_once.2.2 [] "mmse" (some "30") rfl⟩

/-- C8: a lookup matching zero or several source rows does not abort:
the caught value error makes the field take the sentinel `"n/a"`, and the
loop over specification rows runs to completion, keeping every modality
group of the dictionary. -/
theorem aibl_scans_lookup_lenient :
    (∀ (file : List FileRow) (rid : Int) (session : String) (row : ScanSpecRow),
      (file.filter fun fr => fr.rid = rid ∧ fr.session = session).length ≠ 1 →
      computeScanValue file rid session row = .ok (some "n/a"))
    ∧ (∀ (fileFor : ScanSpecRow → List FileRow) (rid : Int) (session : String)
        (rows : List ScanSpecRow) (st : List (String × Slot)),
      (∀ row' ∈ rows, ∃ v, computeScanValue (fileFor row') rid session row' = .ok v) →
      ∃ out, processScansForPair fileFor rid session rows st = .ok out
        ∧ out.map Prod.fst = st.map Prod.fst) := by
  constructor
  · intro file rid session row h
    rw [computeScanValue]
    cases hf : file.filter fun fr => fr.rid = rid ∧ fr.session = session with
    | nil => rfl
    | cons fr tail =>
      cases tail with
      | nil =>
        rw [hf] at h
        simp at h
      | cons fr2 tail2 => rfl
  · intro fileFor rid session rows
    induction rows with
    | nil =>
      intro st _
      exact ⟨st, rfl, rfl⟩
    | cons row rest ih =>
      intro st hex
      obtain ⟨v, hv⟩ := hex row (by simp)
      obtain ⟨out, hout, hfst⟩ := ih (writeModality st row.modality row.bidsField v)
        (fun row' hr => hex row' (by simp [hr]))
      refine ⟨out, ?_, ?_⟩
      · rw [processScansForPair, hv]
        exact hout
      · rw [hfst]
        exact writeModality_fst st row.modality row.bidsField v

/-- Witness for C8: two clinical rows match the same subject and session
(ambiguous lookup), yet the value resolves to the sentinel and the loop
completes with the modality groups intact. -/
theorem aibl_scans_lookup_lenient_w :
    computeScanValue
        [⟨1, "ses-M000", [("MMSCORE", some "30")]⟩,
         ⟨1, "ses-M000", [("MMSCORE", some "28")]⟩] 1 "ses-M000"
        ⟨"MMSCORE", "mmse", "T1/DWI/fMRI/FMAP"⟩ = .ok (some "n/a")
    ∧ ∃ out, processScansForPair
        (fun _ => [⟨1, "ses-M000", [("MMSCORE", some "30")]⟩,
                   ⟨1, "ses-M000", [("MMSCORE", some "28")]⟩]) 1 "ses-M000"
        [⟨"MMSCORE", "mmse", "T1/DWI/fMRI/FMAP"⟩]
        [("T1/DWI/fMRI/FMAP", [])] = .ok out
        ∧ out.map Prod.fst = [("T1/DWI/fMRI/FMAP", ([] : Slot))].map Prod.fst :=
  ⟨aibl_scans_lookup_lenient.1
      [⟨1, "ses-M000", [("MMSCORE", some "30")]⟩,
       ⟨1, "ses-M000", [("MMSCORE", some "28")]⟩] 1 "ses-M000"
      ⟨"MMSCORE", "mmse", "T1/DWI/fMRI/FMAP"⟩ (by decide),
   aibl_scans_lookup_lenient.2
      (fun _ => [⟨1, "ses-M000", [("MMSCORE", some "30")]⟩,
                 ⟨1, "ses-M000", [("MMSCORE", some "28")]⟩]) 1 "ses-M000"
      [⟨"MMSCORE", "mmse", "T1/DWI/fMRI/FMAP"⟩]
      [("T1/DWI/fMRI/FMAP", [])]
      (fun row' hr => by
        rcases List.mem_singleton.1 hr with rfl
        exact ⟨some "n/a", rfl⟩)⟩

/-! ## Flutemeta bad-line handling (`_handle_flutemeta_badline` and the
`on_bad_lines` semantics of `read_csv` with the python engine) -/

/-- `_handle_flutemeta_badline`: a malformed line whose third-to-last field
is `"measured"` and second-to-last is `"AUSTIN AC CT Brain  H19s"` is
repaired to `line[:-3] + ["-4", line[-1]]`; any other line falls off the
end of the function and returns `None`. (The negative indexing would raise
an `IndexError` on lines shorter than three fields.) -/
def handleFlutemetaBadline (ln : List String) :
    Except String (Option (List String)) :=
  if ln.length < 3 then .error "IndexError: list index out of range"
  else if ln[ln.length - 3]? = some "measured"
      ∧ ln[ln.length - 2]? = some "AUSTIN AC CT Brain  H19s" then
    .ok (some (ln.take (ln.length - 3) ++ ["-4"] ++ ln.drop (ln.length - 1)))
  else .ok none

/-- `read_csv(..., engine="python", on_bad_lines=callable)`: a row with
more fields than expected is passed to the callable; per the pandas
contract, a `None` result makes the bad line be ignored (silently
dropped), a list result replaces the row, and an exception propagates.
Rows that are not bad are kept. -/
def parsePythonEngine (expected : Nat)
    (handler : List String → Except String (Option (List String))) :
    List (List String) → Except String (List (List String))
  | [] => .ok []
  | r :: rest =>
    if r.length ≤ expected then
      (parsePythonEngine expected handler rest).map (r :: ·)
    else
      match handler r with
      | .error e => .error e
      | .ok none => parsePythonEngine expected handler rest
      | .ok (some r') => (parsePythonEngine expected handler rest).map (r' :: ·)

/-- C2 counterexample: a malformed flutemeta row of a shape other than the
AUSTIN pattern does not raise a parse error — the handler returns `None`,
so the row is silently dropped and parsing succeeds. -/
theorem aibl_flutemeta_other_shape_not_error :
    parsePythonEngine 3 handleFlutemetaBadline
        [["618", "1", "m18"], ["618", "1", "m18", "1", "measured", "OTHER SCANNER", "0"]]
      = .ok [["618", "1", "m18"]]
    ∧ handleFlutemetaBadline ["618", "1", "m18", "1", "measured", "OTHER SCANNER", "0"]
      = .ok none :=
  ⟨rfl, rfl⟩

/-- C2 (amended): a malformed row ending in
`[..., "measured", "AUSTIN AC CT Brain  H19s", last]` is repaired in place
to `[..., "-4", last]` before field extraction; every malformed row of any
other shape is silently dropped from the parsed table (the handler returns
`None` and the python engine ignores the line) — it does not raise a parse
error. -/
theorem aibl_flutemeta_badline_repair (pre : List String) (last : String) :
    (handleFlutemetaBadline (pre ++ ["measured", "AUSTIN AC CT Brain  H19s", last])
      = .ok (some (pre ++ ["-4", last])))
    ∧ (∀ (expected : Nat) (r : List String) (rest : List (List String)),
        expected < r.length → handleFlutemetaBadline r = .ok none →
        parsePythonEngine expected handleFlutemetaBadline (r :: rest)
          = parsePythonEngine expected handleFlutemetaBadline rest) := by
  constructor
  · have hlen : (pre ++ ["measured", "AUSTIN AC CT Brain  H19s", last]).length
        = pre.length + 3 := by simp
    rw [handleFlutemetaBadline, if_neg (by omega), hlen]
    have h3 : pre.length + 3 - 3 = pre.length := by omega
    have h2 : pre.length + 3 - 2 = pre.length + 1 := by omega
    have h1 : pre.length + 3 - 1 = pre.length + 2 := by omega
    rw [h3, h2, h1]
    rw [List.getElem?_append_right (le_refl pre.length),
      List.getElem?_append_right (by omega : pre.length ≤ pre.length + 1)]
    simp only [Nat.sub_self, Nat.add_sub_cancel_left]
    rw [if_pos ⟨rfl, rfl⟩, List.take_left, List.drop_append 2]
    simp
  · intro expected r rest hlong hnone
    rw [parsePythonEngine, if_neg (by omega), hnone]

/-- Witness for the amended C2: the repair at the documented AUSTIN row and
the silent skip of a different malformed row. -/
theorem aibl_flutemeta_badline_repair_w :
    (handleFlutemetaBadline
        (["618", "1", "m18", "1"] ++ ["measured", "AUSTIN AC CT Brain  H19s", "0"])
      = .ok (some (["618", "1", "m18", "1"] ++ ["-4", "0"])))
    ∧ parsePythonEngine 6 handleFlutemetaBadline
        [["618", "1", "m18", "1", "x", "OTHER", "0"]]
      = parsePythonEngine 6 handleFlutemetaBadline [] :=
  ⟨(aibl_flutemeta_badline_repair ["618", "1", "m18", "1"] "0").1,
   (aibl_flutemeta_badline_repair [] "").2 6
     ["618", "1", "m18", "1", "x", "OTHER", "0"] [] (by decide) (by rfl)⟩

/-! ## Source-file loads (the `prev_location` cache of
`create_participants_tsv_file` and the per-row loads of
`create_sessions_tsv_file`) -/

/-- The load behaviour of `create_participants_tsv_file`'s column loop:
starting from `prev_location = ""`, a row's source file is loaded exactly
when its location differs from the immediately preceding row's location.
Returns the sequence of performed loads. -/
def participantLoadsGo (prev : String) : List String → List String
  | [] => []
  | loc :: rest =>
    if loc = prev then participantLoadsGo prev rest
    else loc :: participantLoadsGo loc rest

def participantLoadSeq (locations : List String) : List String :=
  participantLoadsGo "" locations

/-- `create_sessions_tsv_file` calls `_load_metadata_from_pattern` for
every specification row inside the per-subject loop, with no caching. -/
def sessionLoadSeq (subjects : List String) (locations : List String) :
    List String :=
  subjects.flatMap fun _ => locations

/-- C9 counterexample: with specification locations `["a", "b", "a"]` the
participant builder loads pattern `"a"` twice (the cache only remembers the
immediately preceding location), and the session builder loads a
twice-repeated pattern twice even for a single subject — not "exactly
once" per unique pattern. -/
theorem aibl_loads_not_memoized :
    (participantLoadSeq ["a", "b", "a"]).count "a" = 2
    ∧ (sessionLoadSeq ["sub-AIBL1"] ["a", "a"]).count "a" = 2 := by
  decide

/-- Modelled from the spec's words for the amended claim: one load per
maximal run of consecutive equal locations. -/
def consecutiveDedup : List String → List String
  | [] => []
  | [a] => [a]
  | a :: b :: rest =>
    if a = b then consecutiveDedup (b :: rest)
    else a :: consecutiveDedup (b :: rest)

theorem participantLoadsGo_cons (a : String) :
    ∀ (rest : List String),
      a :: participantLoadsGo a rest = consecutiveDedup (a :: rest) := by
  intro rest
  induction rest generalizing a with
  | nil => rfl
  | cons b r ih =>
    rw [participantLoadsGo]
    by_cases hb : b = a
    · subst hb
      rw [if_pos rfl, consecutiveDedup, if_pos rfl]
      exact ih b
    · rw [if_neg hb, consecutiveDedup, if_neg (fun h => hb h.symm)]
      rw [← ih b]

/-- C9 (amended): in the participant builder a source file is re-read
whenever the location differs from the immediately preceding row's
location — consecutive duplicates are read once, non-consecutive repeats
are re-read — and the session builder performs one read per specification
row per subject, with no caching. -/
theorem aibl_loads_consecutive_only (locations : List String)
    (hne : "" ∉ locations) (subjects locs₂ : List String) :
    participantLoadSeq locations = consecutiveDedup locations
    ∧ (sessionLoadSeq subjects locs₂).length
        = subjects.length * locs₂.length := by
  constructor
  · cases locations with
    | nil => rfl
    | cons a rest =>
      have ha : a ≠ "" := fun h => hne (h ▸ List.mem_cons_self a rest)
      rw [participantLoadSeq, participantLoadsGo,
        if_neg (fun h => ha h), participantLoadsGo_cons a rest]
  · induction subjects with
    | nil => simp [sessionLoadSeq]
    | cons s r ih =>
      rw [sessionLoadSeq, List.flatMap_cons, List.length_append]
      rw [sessionLoadSeq] at ih
      rw [ih, List.length_cons, Nat.succ_mul, Nat.add_comm]

/-- Witness for the amended C9 at the concrete inputs of the
counterexample. -/
theorem aibl_loads_consecutive_only_w :
    participantLoadSeq ["a", "b", "a"] = consecutiveDedup ["a", "b", "a"]
    ∧ (sessionLoadSeq ["sub-AIBL1", "sub-AIBL2"] ["a", "a"]).length
        = (["sub-AIBL1", "sub-AIBL2"] : List String).length
          * (["a", "a"] : List String).length :=
  aibl_loads_consecutive_only ["a", "b", "a"] (by decide)
    ["sub-AIBL1", "sub-AIBL2"] ["a", "a"]

/-! ## Scans TSV emission (`_write_scans_tsv`) -/

def supportedModalities : List String := ["anat", "dwi", "func", "pet"]

/-- One emitted scans row: the `filename` cell and the accumulated metadata
of the file's modality group. -/
structure ScanOut where
  filename : String
  fields : List (String × Option String)
deriving DecidableEq, Repr

/-- The rows appended for one modality directory: one per file (the
`modality.suffix != ".json"` guard compares the directory's suffix, which
is empty, so every file is included), combining the `"<modality> / <file>"`
filename with the modality group's metadata (`ftypeFor` classifies the
file into a group, `dict` is the accumulated scans dictionary entry). -/
def scanRowsForModality (modName : String) (files : List String)
    (ftypeFor : String → String → String) (dict : String → Slot) :
    List ScanOut :=
  files.map fun f => ⟨modName ++ " / " ++ f, dict (ftypeFor modName f)⟩

/-- `scans_df.fillna("n/a")` on one emitted row. -/
def fillnaScan (r : ScanOut) : ScanOut :=
  ⟨r.filename, r.fields.map fun p => (p.1, some (p.2.getD "n/a"))⟩

/-- `_write_scans_tsv` for one subject/session: the existing scans file is
unlinked first (`missing_ok=True`); then, for each subdirectory whose name
is a supported modality, the rows accumulated so far are written to the
file (the write sits inside the modality loop, so the last write wins).
The result is the final content of the scans file, `none` when no file
exists at the end. -/
def writeScansForSession (prior : Option (List ScanOut))
    (subdirs : List (String × List String))
    (ftypeFor : String → String → String) (dict : String → Slot) :
    Option (List ScanOut) :=
  let _ := prior
  ((subdirs.filter fun p => p.1 ∈ supportedModalities).foldl
    (fun (st : Option (List ScanOut) × List ScanOut) p =>
      let df := st.2 ++ scanRowsForModality p.1 p.2 ftypeFor dict
      (some (df.map fillnaScan), df))
    (none, [])).1

/-- C10: the per-session scans file is deleted before anything is written,
so its final content never depends on the prior file; and when the session
directory has no subdirectory named `anat`, `dwi`, `func` or `pet`, no new
scans TSV is written — the session ends the run with no scans file even if
one existed before. -/
theorem aibl_write_scans_deletes_first (prior : Option (List ScanOut))
    (subdirs : List (String × List String))
    (ftypeFor : String → String → String) (dict : String → Slot)
    (h : ∀ p ∈ subdirs, p.1 ∉ supportedModalities) :
    writeScansForSession prior subdirs ftypeFor dict = none
    ∧ (∀ (prior₁ prior₂ : Option (List ScanOut))
        (sd : List (String × List String)),
      writeScansForSession prior₁ sd ftypeFor dict
        = writeScansForSession prior₂ sd ftypeFor dict) := by
  constructor
  · have hfil : subdirs.filter (fun p => p.1 ∈ supportedModalities) = [] := by
      rw [List.filter_eq_nil_iff]
      intro p hp
      simpa using h p hp
    rw [writeScansForSession, hfil]
    rfl
  · intro prior₁ prior₂ sd
    rfl

/-- Witness for C10: a session directory with only an unsupported `misc`
subdirectory, starting from an existing scans file. -/
theorem aibl_write_scans_deletes_first_w :
    writeScansForSession (some [⟨"anat / old.nii", []⟩])
        [("misc", ["x.nii"])] (fun _ _ => "T1/DWI/fMRI/FMAP") (fun _ => [])
      = none
    ∧ (∀ (prior₁ prior₂ : Option (List ScanOut))
        (sd : List (String × List String)),
      writeScansForSession prior₁ sd (fun _ _ => "T1/DWI/fMRI/FMAP") (fun _ => [])
        = writeScansForSession prior₂ sd (fun _ _ => "T1/DWI/fMRI/FMAP") (fun _ => [])) :=
  aibl_write_scans_deletes_first (some [⟨"anat / old.nii", []⟩])
    [("misc", ["x.nii"])] (fun _ _ => "T1/DWI/fMRI/FMAP") (fun _ => [])
    (by decide)

end ClinicaAibl
